import Mathlib

/-!
Shallow embedding of `src/dataset_generation/generate.py` (commit-log
extraction for a training dataset).

Modelling conventions:
* Python strings are Lean `String`s; `str.strip()` is `pystrip` (ASCII
  whitespace suffices for the strings involved), `str.strip('\x00')` is
  `stripNul`, `str.split('\x00')` is `splitNul` (Python semantics: empty
  tokens kept, `"".split(c) = [""]`).
* `subprocess` results are modelled by an oracle
  `exec : List String → Option (String × String)` mapping a command to
  `some (stdout, stderr)`, or `none` when spawning raises an exception.
  `run_git_command` post-processes that exactly as the Python function does.
* A Python exception escaping `get_commit_data` is modelled by `Except`:
  `IndexError` from `commit_entries_raw[i+1]`, `TypeError` from
  `len(None)`.
-/

/-- ASCII whitespace recognised by Python's `str.strip()` (sufficient for
the commit data handled here). -/
def isPySpace (c : Char) : Bool :=
  c = ' ' || c = '\t' || c = '\n' || c = '\r' || c = '\x0b' || c = '\x0c'

/-- Drop elements satisfying `p` from the right end of a list. -/
def pdropRight (p : Char → Bool) (l : List Char) : List Char :=
  (l.reverse.dropWhile p).reverse

/-- Strip characters satisfying `p` from both ends (Python `str.strip`). -/
def pstripChars (p : Char → Bool) (s : String) : String :=
  String.mk (pdropRight p (s.data.dropWhile p))

/-- Python `str.strip()`. -/
def pystrip (s : String) : String := pstripChars isPySpace s

/-- Is a character the NUL delimiter? -/
def isNul (c : Char) : Bool := c = '\x00'

/-- Python `str.strip('\x00')`. -/
def stripNul (s : String) : String := pstripChars isNul s

/-- Python `str.split('\x00')` on the character list: every occurrence of
the NUL delimiter splits, empty tokens are kept, and the empty list yields
one empty token. -/
def splitNulL : List Char → List (List Char)
  | [] => [[]]
  | c :: cs =>
    if c = '\x00' then [] :: splitNulL cs
    else
      match splitNulL cs with
      | t :: ts => (c :: t) :: ts
      | [] => [[c]]

/-- Python `str.split('\x00')`. -/
def splitNul (s : String) : List String := (splitNulL s.data).map String.mk

/-- The result of `process.communicate()` in `run_git_command`:
`none` models a raised exception (e.g. `FileNotFoundError`),
`some (stdout, stderr)` a completed process. -/
abbrev RawResult := Option (String × String)

/-- `run_git_command`: returns `None` when an exception occurred or stderr
is non-blank, otherwise `stdout.strip()`. -/
def run_git_command (result : RawResult) : Option String :=
  match result with
  | none => none
  | some (stdout, stderr) =>
    if pystrip stderr = "" then some (pystrip stdout) else none

deriving instance DecidableEq for Except

/-- The dynamic Python value passed as `max_commits`: `None`, an `int`, or
some other object. -/
inductive PyVal where
  | none
  | int (n : Int)
  | other
deriving DecidableEq

/-- Python exceptions that can escape `get_commit_data`. -/
inductive PyError where
  | indexError
  | typeError
deriving DecidableEq

/-- `{ identifier (commit_hash), summary (subject), body }` as parsed from
the log blob. -/
structure CommitRecord where
  identifier : String
  summary : String
  body : String
deriving DecidableEq

/-- `{ "diff": ..., "commit_message": ... }` appended to `dataset`. -/
structure DatasetEntry where
  diff : String
  commit_message : String
deriving DecidableEq

/-- The `git log` command list built in `get_commit_data`: the `-n` cap is
appended only for an `int` that is `> 0`. -/
def git_log_command (max_commits : PyVal) : List String :=
  let base := ["git", "log", "--no-merges", "--pretty=format:%H%x00%s%x00%b%x00"]
  match max_commits with
  | PyVal.int n => if 0 < n then base ++ ["-n " ++ toString n] else base
  | _ => base

/-- The `git show` command list for one commit's diff. -/
def git_diff_command (commit_hash : String) : List String :=
  ["git", "show", "--pretty=format:\"\"", "--patch", commit_hash]

/-- `log_output.strip('\x00').split('\x00')`. -/
def commit_entries_raw (log_output : String) : List String :=
  splitNul (stripNul log_output)

/-- `full_commit_message` assembly: subject, then a blank line and the
(already stripped) body when the body is non-empty. -/
def full_commit_message (subject body : String) : String :=
  if body ≠ "" then subject ++ "\n\n" ++ body else subject

/-- The parsing step of `get_commit_data` in isolation: consume the token
list in groups of three.  `commit_entries_raw[i]` is stripped, the subject
`commit_entries_raw[i+1]` is taken as-is (and raises `IndexError` when
absent), the body `commit_entries_raw[i+2]` is stripped and defaults to
`""` when absent. -/
def parseCommitRecords : List String → Except PyError (List CommitRecord)
  | [] => Except.ok []
  | [_] => Except.error PyError.indexError
  | [h, s] => Except.ok [⟨pystrip h, s, ""⟩]
  | h :: s :: b :: rest =>
    (parseCommitRecords rest).map
      (fun tail => ⟨pystrip h, s, pystrip b⟩ :: tail)

/-- Parsing applied to a raw log blob. -/
def parseLog (log_output : String) : Except PyError (List CommitRecord) :=
  parseCommitRecords (commit_entries_raw log_output)

/-- The commit message stored for a parsed record (its body is already
stripped at parse time), with the final `strip()` applied on append. -/
def assembleMessage (r : CommitRecord) : String :=
  pystrip (full_commit_message r.summary r.body)

/-- The `for i in range(0, len(commit_entries_raw), 3)` loop of
`get_commit_data`: for each token group build the message, fetch the diff
via `exec`, and filter by `len(diff_output) > 5000`.  `len(None)` raises
`TypeError`; a missing subject token raises `IndexError`. -/
def processTokens (exec : List String → RawResult) :
    List String → Except PyError (List DatasetEntry)
  | [] => Except.ok []
  | [_] => Except.error PyError.indexError
  | [h, s] =>
    match run_git_command (exec (git_diff_command (pystrip h))) with
    | none => Except.error PyError.typeError
    | some diff_output =>
      if diff_output.length > 5000 then Except.ok []
      else Except.ok [⟨diff_output, pystrip (full_commit_message s "")⟩]
  | h :: s :: b :: rest =>
    match run_git_command (exec (git_diff_command (pystrip h))) with
    | none => Except.error PyError.typeError
    | some diff_output =>
      if diff_output.length > 5000 then processTokens exec rest
      else
        (processTokens exec rest).map
          (fun tail =>
            ⟨diff_output, pystrip (full_commit_message s (pystrip b))⟩ :: tail)

/-- `get_commit_data(repo_path, max_commits)`.  `hasGitDir` models
`os.path.isdir(os.path.join(repo_path, ".git"))`; `exec` models the
subprocess layer.  Returns `Except.error e` when a Python exception
escapes. -/
def get_commit_data (exec : List String → RawResult) (hasGitDir : Bool)
    (max_commits : PyVal) : Except PyError (List DatasetEntry) :=
  if hasGitDir then
    match run_git_command (exec (git_log_command max_commits)) with
    | none => Except.ok []
    | some log_output =>
      if log_output = "" then Except.ok []
      else processTokens exec (commit_entries_raw log_output)
  else Except.ok []

/-- A string that never contains the NUL delimiter (as git guarantees for
hashes, subjects and bodies in its `%x00`-delimited output). -/
abbrev nulFree (s : String) : Prop := ∀ c ∈ s.data, c ≠ '\x00'

/-- All three fields of a record are NUL-free. -/
abbrev nulFreeRecord (r : CommitRecord) : Prop :=
  nulFree r.identifier ∧ nulFree r.summary ∧ nulFree r.body

/-- One commit as emitted by
`git log --pretty=format:%H%x00%s%x00%b%x00`: three fields, each followed
by the delimiter. -/
def encodeCommit (r : CommitRecord) : String :=
  r.identifier ++ "\x00" ++ r.summary ++ "\x00" ++ r.body ++ "\x00"

/-- A whole log blob for a list of commits. -/
def encodeLog : List CommitRecord → String
  | [] => ""
  | r :: rs => encodeCommit r ++ encodeLog rs

/-- What parsing stores for a record: identifier and body stripped, the
summary taken as-is. -/
def stripCommitRecord (r : CommitRecord) : CommitRecord :=
  ⟨pystrip r.identifier, r.summary, pystrip r.body⟩

/-- The flat token list a list of commits contributes (three tokens per
commit). -/
def flatTokens : List CommitRecord → List String
  | [] => []
  | r :: rs => r.identifier :: r.summary :: r.body :: flatTokens rs

/-- An oracle for a repository with a single commit `h1` whose diff is
small. -/
def execDemo : List String → RawResult := fun cmd =>
  if cmd = git_log_command PyVal.none then some ("h1\x00s1\x00b1\x00", "")
  else if cmd = git_diff_command "h1" then some ("diff content", "")
  else none

/-- An oracle for a repository with two commits where the diff query for
the first produces error text (so `run_git_command` returns `none`) while
the second commit's diff is fine. -/
def execAbsentDiff : List String → RawResult := fun cmd =>
  if cmd = git_log_command PyVal.none then
    some ("h1\x00s1\x00b1\x00\nh2\x00s2\x00b2\x00", "")
  else if cmd = git_diff_command "h1" then some ("", "fatal: bad object")
  else if cmd = git_diff_command "h2" then some ("ok diff", "")
  else none

/-- An oracle whose diff query for `h1` succeeds with empty output. -/
def execEmptyDiff : List String → RawResult := fun cmd =>
  if cmd = git_diff_command "h1" then some ("", "") else none

/-- An oracle where every subprocess call fails. -/
def execNull : List String → RawResult := fun _ => none

example : pystrip "  a b  " = "a b" := by decide
example : stripNul "h\x00\x00\x00" = "h" := by decide
example : splitNul "a\x00\x00b" = ["a", "", "b"] := by decide
example : splitNul "" = [""] := by decide
example : parseLog "abc123\x00Fix bug\x00\x00" =
    Except.ok [⟨"abc123", "Fix bug", ""⟩] := by decide
example : parseLog "def456\x00Add feature\x00Closes #12\x00" =
    Except.ok [⟨"def456", "Add feature", "Closes #12"⟩] := by decide
example : parseLog "h\x00\x00\x00" = Except.error PyError.indexError := by decide

lemma dropWhile_len_le (p : Char → Bool) (l : List Char) :
    (l.dropWhile p).length ≤ l.length := by
  induction l with
  | nil => simp
  | cons c cs ih =>
    by_cases h : p c
    · simp only [List.dropWhile_cons, h, if_true, List.length_cons]; omega
    · simp [List.dropWhile_cons, h]

lemma dropWhile_cons_self {p : Char → Bool} {c : Char} {cs : List Char}
    (h : List.dropWhile p (c :: cs) = c :: cs) : p c = false := by
  by_cases hc : p c
  · exfalso
    simp only [List.dropWhile_cons, hc, if_true] at h
    have := dropWhile_len_le p cs
    rw [h] at this
    simp at this
  · simpa using hc

lemma pdropRight_nil (p : Char → Bool) : pdropRight p [] = [] := rfl

lemma pdropRight_concat_pos {p : Char → Bool} {a : Char} (x : List Char)
    (h : p a = true) : pdropRight p (x ++ [a]) = pdropRight p x := by
  simp [pdropRight, List.dropWhile_cons, h]

lemma pdropRight_concat_neg {p : Char → Bool} {a : Char} (x : List Char)
    (h : p a = false) : pdropRight p (x ++ [a]) = x ++ [a] := by
  simp [pdropRight, List.dropWhile_cons, h]

lemma pdropRight_idem (p : Char → Bool) (l : List Char) :
    pdropRight p (pdropRight p l) = pdropRight p l := by
  simp [pdropRight, List.reverse_reverse, List.dropWhile_idempotent]

lemma dropWhile_pdropRight_self {p : Char → Bool} {l : List Char}
    (h : l.dropWhile p = l) : (pdropRight p l).dropWhile p = pdropRight p l := by
  cases l with
  | nil => simp [pdropRight]
  | cons c cs =>
    have hc : p c = false := dropWhile_cons_self h
    show (pdropRight p (c :: cs)).dropWhile p = pdropRight p (c :: cs)
    have hrw : (c :: cs).reverse = cs.reverse ++ [c] := by simp
    by_cases hE : (cs.reverse.dropWhile p).isEmpty
    · simp [pdropRight, hrw, List.dropWhile_append, hE, List.dropWhile_cons, hc]
    · simp [pdropRight, hrw, List.dropWhile_append, hE, List.dropWhile_cons, hc]

lemma pstripChars_idem (p : Char → Bool) (s : String) :
    pstripChars p (pstripChars p s) = pstripChars p s := by
  show String.mk (pdropRight p ((pdropRight p (s.data.dropWhile p)).dropWhile p)) =
    String.mk (pdropRight p (s.data.dropWhile p))
  rw [dropWhile_pdropRight_self (List.dropWhile_idempotent p s.data)]
  rw [pdropRight_idem]

lemma pystrip_idem (s : String) : pystrip (pystrip s) = pystrip s :=
  pstripChars_idem isPySpace s

lemma pystrip_empty : pystrip "" = "" := rfl

lemma splitNulL_nulFree {l : List Char} (h : ∀ c ∈ l, c ≠ '\x00') :
    splitNulL l = [l] := by
  induction l with
  | nil => rfl
  | cons c cs ih =>
    have hc : c ≠ '\x00' := h c (by simp)
    have hcs : ∀ x ∈ cs, x ≠ '\x00' := fun x hx => h x (by simp [hx])
    simp [splitNulL, hc, ih hcs]

lemma splitNulL_append {t : List Char} (h : ∀ c ∈ t, c ≠ '\x00')
    (rest : List Char) :
    splitNulL (t ++ '\x00' :: rest) = t :: splitNulL rest := by
  induction t with
  | nil => simp [splitNulL]
  | cons c t' ih =>
    have hc : c ≠ '\x00' := h c (by simp)
    have ht' : ∀ x ∈ t', x ≠ '\x00' := fun x hx => h x (by simp [hx])
    simp [splitNulL, hc, ih ht']

lemma data_append (s t : String) : (s ++ t).data = s.data ++ t.data := rfl

lemma mk_data (s : String) : String.mk s.data = s := rfl

lemma data_eq_nil_iff (s : String) : s.data = [] ↔ s = "" := by
  cases s with
  | mk l =>
    constructor
    · intro h
      exact congrArg String.mk h
    · intro h
      exact congrArg String.data h

lemma nul_data : ("\x00" : String).data = ['\x00'] := rfl

lemma isNul_nul : isNul '\x00' = true := rfl

lemma isNul_of_ne {c : Char} (h : c ≠ '\x00') : isNul c = false := by
  simp [isNul, h]

lemma map_mk_data (l : List String) :
    (l.map String.data).map String.mk = l := by
  simp [List.map_map, Function.comp_def, mk_data]

lemma pdropRight_shape1 {b : List Char} (X : List Char) (hb : b ≠ [])
    (hfree : ∀ c ∈ b, c ≠ '\x00') :
    pdropRight isNul ((X ++ b) ++ ['\x00']) = X ++ b := by
  rw [pdropRight_concat_pos (X ++ b) isNul_nul]
  rcases (List.eq_nil_or_concat b) with h | ⟨b', cb, rfl⟩
  · exact absurd h hb
  · simp only [List.concat_eq_append] at hfree ⊢
    have hcb : isNul cb = false :=
      isNul_of_ne (hfree cb (by simp))
    rw [show X ++ (b' ++ [cb]) = (X ++ b') ++ [cb] by simp,
      pdropRight_concat_neg (X ++ b') hcb]

lemma pdropRight_shape2 {s : List Char} (X : List Char) (hs : s ≠ [])
    (hfree : ∀ c ∈ s, c ≠ '\x00') :
    pdropRight isNul (((X ++ s) ++ ['\x00']) ++ ['\x00']) = X ++ s := by
  rw [pdropRight_concat_pos ((X ++ s) ++ ['\x00']) isNul_nul]
  exact pdropRight_shape1 X hs hfree

lemma encodeLog_data_append (xs ys : List CommitRecord) :
    (encodeLog (xs ++ ys)).data = (encodeLog xs).data ++ (encodeLog ys).data := by
  induction xs with
  | nil => simp [encodeLog]
  | cons r xs ih => simp [encodeLog, data_append, ih]

lemma splitNulL_encodeLog (rs : List CommitRecord) (rest : List Char)
    (hfree : ∀ r ∈ rs, nulFreeRecord r) :
    splitNulL ((encodeLog rs).data ++ rest) =
      (flatTokens rs).map String.data ++ splitNulL rest := by
  induction rs with
  | nil => simp [encodeLog, flatTokens]
  | cons r rs ih =>
    obtain ⟨h1, h2, h3⟩ := hfree r (List.mem_cons_self r rs)
    have hrest := ih (fun x hx => hfree x (List.mem_cons_of_mem r hx))
    have hshape : (encodeLog (r :: rs)).data ++ rest =
        r.identifier.data ++ '\x00' ::
          (r.summary.data ++ '\x00' ::
            (r.body.data ++ '\x00' :: ((encodeLog rs).data ++ rest))) := by
      simp [encodeLog, encodeCommit, data_append, nul_data]
    rw [hshape, splitNulL_append h1, splitNulL_append h2, splitNulL_append h3,
      hrest]
    simp [flatTokens]

lemma dropWhile_encodeLog (rs : List CommitRecord) (hne : rs ≠ [])
    (hfree : ∀ r ∈ rs, nulFree r.identifier)
    (hids : ∀ r ∈ rs, r.identifier ≠ "") :
    (encodeLog rs).data.dropWhile isNul = (encodeLog rs).data := by
  cases rs with
  | nil => exact absurd rfl hne
  | cons r rs =>
    have hid : r.identifier ≠ "" := hids r (List.mem_cons_self r rs)
    have hfr : nulFree r.identifier := hfree r (List.mem_cons_self r rs)
    cases hd : r.identifier.data with
    | nil => exact absurd ((data_eq_nil_iff _).1 hd) hid
    | cons c t =>
      have hc : c ≠ '\x00' := hfr c (by rw [hd]; simp)
      have hL : (encodeLog (r :: rs)).data =
          c :: (t ++ '\x00' ::
            (r.summary.data ++ '\x00' ::
              (r.body.data ++ '\x00' :: (encodeLog rs).data))) := by
        simp [encodeLog, encodeCommit, data_append, nul_data, hd]
      rw [hL, List.dropWhile_cons, isNul_of_ne hc]
      simp

lemma tokens_encodeLog_body_ne (init : List CommitRecord) (last : CommitRecord)
    (hfree : ∀ r ∈ init ++ [last], nulFreeRecord r)
    (hids : ∀ r ∈ init ++ [last], r.identifier ≠ "") (hb : last.body ≠ "") :
    commit_entries_raw (encodeLog (init ++ [last])) =
      flatTokens init ++ [last.identifier, last.summary, last.body] := by
  obtain ⟨hfi, hfs, hfb⟩ := hfree last (by simp)
  have hA : (encodeLog (init ++ [last])).data.dropWhile isNul =
      (encodeLog (init ++ [last])).data :=
    dropWhile_encodeLog _ (by simp) (fun r hr => (hfree r hr).1) hids
  have hbd : last.body.data ≠ [] := fun h => hb ((data_eq_nil_iff _).1 h)
  have hB : pdropRight isNul (encodeLog (init ++ [last])).data =
      (encodeLog init).data ++
        (last.identifier.data ++ '\x00' ::
          (last.summary.data ++ '\x00' :: last.body.data)) := by
    have hshape : (encodeLog (init ++ [last])).data =
        (((encodeLog init).data ++
            (last.identifier.data ++ '\x00' ::
              (last.summary.data ++ ['\x00']))) ++ last.body.data) ++ ['\x00'] := by
      rw [encodeLog_data_append]
      simp [encodeLog, encodeCommit, data_append, nul_data]
    rw [hshape, pdropRight_shape1 _ hbd hfb]
    simp
  show (splitNulL (pdropRight isNul
      ((encodeLog (init ++ [last])).data.dropWhile isNul))).map String.mk = _
  rw [hA, hB,
    splitNulL_encodeLog init _ (fun r hr => hfree r (by simp [hr])),
    splitNulL_append hfi, splitNulL_append hfs, splitNulL_nulFree hfb]
  simp [Function.comp_def, mk_data]

lemma tokens_encodeLog_body_empty (init : List CommitRecord)
    (last : CommitRecord)
    (hfree : ∀ r ∈ init ++ [last], nulFreeRecord r)
    (hids : ∀ r ∈ init ++ [last], r.identifier ≠ "")
    (hb : last.body = "") (hs : last.summary ≠ "") :
    commit_entries_raw (encodeLog (init ++ [last])) =
      flatTokens init ++ [last.identifier, last.summary] := by
  obtain ⟨hfi, hfs, hfb⟩ := hfree last (by simp)
  have hA : (encodeLog (init ++ [last])).data.dropWhile isNul =
      (encodeLog (init ++ [last])).data :=
    dropWhile_encodeLog _ (by simp) (fun r hr => (hfree r hr).1) hids
  have hsd : last.summary.data ≠ [] := fun h => hs ((data_eq_nil_iff _).1 h)
  have hB : pdropRight isNul (encodeLog (init ++ [last])).data =
      (encodeLog init).data ++
        (last.identifier.data ++ '\x00' :: last.summary.data) := by
    have hshape : (encodeLog (init ++ [last])).data =
        ((((encodeLog init).data ++
            (last.identifier.data ++ ['\x00'])) ++ last.summary.data) ++
          ['\x00']) ++ ['\x00'] := by
      rw [encodeLog_data_append]
      simp [encodeLog, encodeCommit, data_append, nul_data, hb]
    rw [hshape, pdropRight_shape2 _ hsd hfs]
    simp
  show (splitNulL (pdropRight isNul
      ((encodeLog (init ++ [last])).data.dropWhile isNul))).map String.mk = _
  rw [hA, hB,
    splitNulL_encodeLog init _ (fun r hr => hfree r (by simp [hr])),
    splitNulL_append hfi, splitNulL_nulFree hfs]
  simp [Function.comp_def, mk_data]

lemma parse_flatTokens (rs : List CommitRecord) :
    parseCommitRecords (flatTokens rs) =
      Except.ok (rs.map stripCommitRecord) := by
  induction rs with
  | nil => rfl
  | cons r rs ih =>
    simp [flatTokens, parseCommitRecords, ih, stripCommitRecord, Except.map]

lemma flatTokens_concat (init : List CommitRecord) (last : CommitRecord) :
    flatTokens (init ++ [last]) =
      flatTokens init ++ [last.identifier, last.summary, last.body] := by
  induction init with
  | nil => rfl
  | cons r init ih => simp [flatTokens, ih]

lemma parse_flatTokens_concat_nobody (init : List CommitRecord)
    (last : CommitRecord) (hb : last.body = "") :
    parseCommitRecords (flatTokens init ++ [last.identifier, last.summary]) =
      Except.ok ((init ++ [last]).map stripCommitRecord) := by
  induction init with
  | nil =>
    simp [flatTokens, parseCommitRecords, stripCommitRecord, hb, pystrip_empty]
  | cons r initl ih =>
    simp only [flatTokens, List.cons_append, parseCommitRecords, Except.map,
      List.append_eq]
    rw [ih]
    simp [stripCommitRecord]

/-- C2 counterexample: `"h\x00\x00\x00"` is a well-formed log blob with
K = 1 complete commit (identifier `"h"`, empty summary, empty body, each
field followed by the delimiter — it is exactly `encodeLog` of that one
record), yet the parsing step raises `IndexError` instead of producing one
record: Python's `strip('\x00')` removes all three trailing delimiters,
leaving the single token `["h"]`, and `commit_entries_raw[i+1]` is out of
range. -/
theorem claim2_counterexample :
    encodeLog [⟨"h", "", ""⟩] = "h\x00\x00\x00" ∧
    parseLog "h\x00\x00\x00" = Except.error PyError.indexError := by
  constructor
  · decide
  · decide

/-- C2 (amended): for every well-formed log blob with K ≥ 1 complete
commits (NUL-free fields, non-empty identifiers) in which the final
commit's summary and body are not both empty, the parsing step produces
exactly K commit records in the same relative order (the conclusion's
`List.map` preserves length and order). -/
theorem claim2_parser_count_amended (init : List CommitRecord)
    (last : CommitRecord)
    (hfree : ∀ r ∈ init ++ [last], nulFreeRecord r)
    (hids : ∀ r ∈ init ++ [last], r.identifier ≠ "")
    (hlast : last.summary ≠ "" ∨ last.body ≠ "") :
    parseLog (encodeLog (init ++ [last])) =
      Except.ok ((init ++ [last]).map stripCommitRecord) := by
  by_cases hb : last.body = ""
  · rcases hlast with hs | hbne
    · show parseCommitRecords (commit_entries_raw (encodeLog (init ++ [last]))) = _
      rw [tokens_encodeLog_body_empty init last hfree hids hb hs]
      exact parse_flatTokens_concat_nobody init last hb
    · exact absurd hb hbne
  · show parseCommitRecords (commit_entries_raw (encodeLog (init ++ [last]))) = _
    rw [tokens_encodeLog_body_ne init last hfree hids hb, ← flatTokens_concat]
    exact parse_flatTokens (init ++ [last])

/-- C2 witness: a two-commit blob (second commit with empty body but
non-empty summary) parses to exactly its two records, in order. -/
theorem claim2_witness :
    parseLog (encodeLog (([⟨"h1", "s1", "b1"⟩] : List CommitRecord) ++
        ([⟨"h2", "s2", ""⟩] : List CommitRecord))) =
      Except.ok ((([⟨"h1", "s1", "b1"⟩] : List CommitRecord) ++
        ([⟨"h2", "s2", ""⟩] : List CommitRecord)).map stripCommitRecord) :=
  claim2_parser_count_amended [⟨"h1", "s1", "b1"⟩] ⟨"h2", "s2", ""⟩
    (by decide) (by decide) (Or.inl (by decide))

/-- C5 counterexample: the blob `"a\x00b\x00c\x00d"` splits (after
delimiter stripping) into four tokens, so the final group holds a single
token — fewer than three — and the parsing step fails with `IndexError`
instead of producing a record for the partial group. -/
theorem claim5_counterexample :
    commit_entries_raw "a\x00b\x00c\x00d" = ["a", "b", "c", "d"] ∧
    parseLog "a\x00b\x00c\x00d" = Except.error PyError.indexError := by
  constructor
  · decide
  · decide

/-- C5 (amended): when exactly the body token of the final group is
missing (token count ≡ 2 mod 3) the parse does not fail: the partial
group still yields a record whose body defaults to the empty string.  (A
final group holding only one token raises `IndexError` instead — see the
counterexample.) -/
theorem claim5_short_group_amended (ts : List String)
    (h2 : ts.length % 3 = 2) :
    ∃ recs r, parseCommitRecords ts = Except.ok (recs ++ [r]) ∧
      (recs ++ [r]).length = ts.length / 3 + 1 ∧ r.body = "" := by
  induction ts using parseCommitRecords.induct with
  | case1 => simp at h2
  | case2 x => simp at h2
  | case3 h s =>
    refine ⟨[], ⟨pystrip h, s, ""⟩, rfl, by simp, rfl⟩
  | case4 h s b rest ih =>
    have hrest : rest.length % 3 = 2 := by
      simp only [List.length_cons] at h2; omega
    obtain ⟨recs, r, hp, hlen, hbody⟩ := ih hrest
    refine ⟨⟨pystrip h, s, pystrip b⟩ :: recs, r, ?_, ?_, hbody⟩
    · show (parseCommitRecords rest).map _ = _
      rw [hp]
      simp [Except.map]
    · simp only [List.length_append, List.length_cons, List.length_singleton] at hlen ⊢
      omega

lemma processTokens_ok_props (exec : List String → RawResult) :
    ∀ ts ds, processTokens exec ts = Except.ok ds →
      (∀ e ∈ ds, e.diff.length ≤ 5000 ∧
        ∃ hsh, run_git_command (exec (git_diff_command hsh)) = some e.diff) ∧
      ∃ recs, parseCommitRecords ts = Except.ok recs ∧
        List.Sublist (ds.map DatasetEntry.commit_message)
          (recs.map assembleMessage) := by
  intro ts
  induction ts using parseCommitRecords.induct with
  | case1 =>
    intro ds hok
    simp only [processTokens, Except.ok.injEq] at hok
    subst hok
    exact ⟨by simp, [], rfl, by simp⟩
  | case2 x =>
    intro ds hok
    simp [processTokens] at hok
  | case3 h s =>
    intro ds hok
    cases hrc : run_git_command (exec (git_diff_command (pystrip h))) with
    | none =>
      rw [show processTokens exec [h, s] = Except.error PyError.typeError by
        simp [processTokens, hrc]] at hok
      simp at hok
    | some d =>
      by_cases hlen : d.length > 5000
      · rw [show processTokens exec [h, s] = Except.ok [] by
          simp [processTokens, hrc, hlen]] at hok
        injection hok with hds
        subst hds
        exact ⟨by simp, [⟨pystrip h, s, ""⟩], rfl, by simp⟩
      · rw [show processTokens exec [h, s] =
            Except.ok [⟨d, pystrip (full_commit_message s "")⟩] by
          simp [processTokens, hrc, hlen]] at hok
        injection hok with hds
        subst hds
        refine ⟨?_, [⟨pystrip h, s, ""⟩], rfl, ?_⟩
        · intro e he
          simp at he
          subst he
          exact ⟨show d.length ≤ 5000 by omega, pystrip h, hrc⟩
        · simp [assembleMessage]
  | case4 h s b rest ih =>
    intro ds hok
    cases hrc : run_git_command (exec (git_diff_command (pystrip h))) with
    | none =>
      rw [show processTokens exec (h :: s :: b :: rest) =
          Except.error PyError.typeError by simp [processTokens, hrc]] at hok
      simp at hok
    | some d =>
      by_cases hlen : d.length > 5000
      · rw [show processTokens exec (h :: s :: b :: rest) =
            processTokens exec rest by simp [processTokens, hrc, hlen]] at hok
        obtain ⟨hall, recs, hp, hsub⟩ := ih ds hok
        refine ⟨hall, ⟨pystrip h, s, pystrip b⟩ :: recs, ?_, ?_⟩
        · simp only [parseCommitRecords, hp, Except.map]
        · exact hsub.trans ((recs.map assembleMessage).sublist_cons_self _)
      · rw [show processTokens exec (h :: s :: b :: rest) =
            (processTokens exec rest).map
              (fun tail =>
                ⟨d, pystrip (full_commit_message s (pystrip b))⟩ :: tail) by
          simp [processTokens, hrc, hlen]] at hok
        cases hrec : processTokens exec rest with
        | error e => rw [hrec] at hok; simp [Except.map] at hok
        | ok tail =>
          rw [hrec] at hok
          simp only [Except.map, Except.ok.injEq] at hok
          subst hok
          obtain ⟨hall, recs, hp, hsub⟩ := ih tail hrec
          refine ⟨?_, ⟨pystrip h, s, pystrip b⟩ :: recs, ?_, ?_⟩
          · intro e he
            rcases List.mem_cons.1 he with rfl | hm
            · exact ⟨show d.length ≤ 5000 by omega, pystrip h, hrc⟩
            · exact hall e hm
          · simp only [parseCommitRecords, hp, Except.map]
          · exact hsub.cons₂ _

/-- C1: whenever `get_commit_data` returns a dataset, every entry's diff
has length at most the 5000-character threshold and is exactly a diff text
returned by the runner (no truncation or partial inclusion), and — when a
log blob was actually fetched and parsed — the dataset's length is at most
the number of parsed commit records. -/
theorem claim1_diff_filter (exec : List String → RawResult) (gd : Bool)
    (mc : PyVal) (ds : List DatasetEntry)
    (h : get_commit_data exec gd mc = Except.ok ds) :
    (∀ e ∈ ds, e.diff.length ≤ 5000 ∧
      ∃ hsh, run_git_command (exec (git_diff_command hsh)) = some e.diff) ∧
    (gd = true →
      ∀ log_output,
        run_git_command (exec (git_log_command mc)) = some log_output →
        log_output ≠ "" →
        ∃ recs, parseLog log_output = Except.ok recs ∧
          ds.length ≤ recs.length) := by
  cases gd with
  | false =>
    have hds : Except.ok ([] : List DatasetEntry) = Except.ok ds := h
    injection hds with hds
    subst hds
    exact ⟨by simp, fun hgd => by simp at hgd⟩
  | true =>
    have h' : (match run_git_command (exec (git_log_command mc)) with
        | Option.none => Except.ok ([] : List DatasetEntry)
        | Option.some log_output =>
          if log_output = "" then Except.ok []
          else processTokens exec (commit_entries_raw log_output)) =
        Except.ok ds := h
    cases hlog : run_git_command (exec (git_log_command mc)) with
    | none =>
      have h'' : (Except.ok [] : Except PyError (List DatasetEntry)) =
          Except.ok ds := by
        rw [hlog] at h'; exact h'
      injection h'' with hds
      subst hds
      refine ⟨by simp, ?_⟩
      intro _ lo hlo _
      simp at hlo
    | some lo =>
      have h'' : (if lo = "" then Except.ok []
          else processTokens exec (commit_entries_raw lo)) =
          Except.ok ds := by
        rw [hlog] at h'; exact h'
      by_cases hne : lo = ""
      · rw [if_pos hne] at h''
        injection h'' with hds
        subst hds
        refine ⟨by simp, ?_⟩
        intro _ lo2 hlo2 hne2
        injection hlo2 with hlo2
        exact absurd (hlo2.symm.trans hne) hne2
      · rw [if_neg hne] at h''
        obtain ⟨hall, recs, hp, hsub⟩ := processTokens_ok_props exec _ ds h''
        refine ⟨hall, ?_⟩
        intro _ lo2 hlo2 hne2
        injection hlo2 with hlo2
        subst hlo2
        refine ⟨recs, hp, ?_⟩
        have := hsub.length_le
        simpa using this

/-- C1 witness: a one-commit repository whose diff is short produces a
one-entry dataset, bounded by the one parsed record. -/
theorem claim1_witness :
    ∃ recs, parseLog "h1\x00s1\x00b1\x00" = Except.ok recs ∧
      ([(⟨"diff content", "s1\n\nb1"⟩ : DatasetEntry)]).length ≤
        recs.length :=
  (claim1_diff_filter execDemo true PyVal.none
      [⟨"diff content", "s1\n\nb1"⟩] (by decide)).2 rfl
    "h1\x00s1\x00b1\x00" (by decide) (by decide)

/-- C3: the assembled commit message equals the (trimmed) summary when the
body is empty after trimming, and `summary ++ "\n\n" ++ trimmed body`
otherwise, with the whole result trimmed; in particular the two scenario
blobs from the specification yield `"Fix bug"` and
`"Add feature\n\nCloses #12"`. -/
theorem claim3_message_assembly :
    (∀ subject body : String,
      pystrip (full_commit_message subject (pystrip body)) =
        if pystrip body = "" then pystrip subject
        else pystrip (subject ++ "\n\n" ++ pystrip body)) ∧
    (parseLog "abc123\x00Fix bug\x00\x00").map (List.map assembleMessage) =
      Except.ok ["Fix bug"] ∧
    (parseLog "def456\x00Add feature\x00Closes #12\x00").map
        (List.map assembleMessage) =
      Except.ok ["Add feature\n\nCloses #12"] := by
  refine ⟨?_, by decide, by decide⟩
  intro subject body
  by_cases hb : pystrip body = ""
  · simp [full_commit_message, hb]
  · simp [full_commit_message, hb]

/-- C4 (code bug evidence): a repository with two commits whose first diff
query yields no text (`run_git_command` returns `none` because stderr is
non-blank) makes `get_commit_data` raise `TypeError` (`len(None)`): the
record is not skipped, no dataset is returned, and the second commit is
never processed — contradicting the specified skip-and-continue
semantics. -/
theorem claim4_absent_diff_typeerror :
    get_commit_data execAbsentDiff true PyVal.none =
      Except.error PyError.typeError := by decide

/-- C6: in every parsed record the identifier and body are fixed points of
trimming (they were stripped at parse time) while the summary is stored
verbatim — it occurs untouched among the split tokens; the concrete blob
shows surrounding spaces kept in the summary but removed from identifier
and body. -/
theorem claim6_field_trimming :
    (∀ ts recs, parseCommitRecords ts = Except.ok recs →
      ∀ r ∈ recs, pystrip r.identifier = r.identifier ∧
        pystrip r.body = r.body ∧ r.summary ∈ ts) ∧
    parseLog " h \x00  s  \x00 b \x00" =
      Except.ok [⟨"h", "  s  ", "b"⟩] := by
  refine ⟨?_, by decide⟩
  intro ts
  induction ts using parseCommitRecords.induct with
  | case1 =>
    intro recs hok
    simp only [parseCommitRecords, Except.ok.injEq] at hok
    subst hok
    simp
  | case2 x =>
    intro recs hok
    simp [parseCommitRecords] at hok
  | case3 h s =>
    intro recs hok
    simp only [parseCommitRecords, Except.ok.injEq] at hok
    subst hok
    intro r hr
    simp only [List.mem_singleton] at hr
    subst hr
    exact ⟨pystrip_idem h, rfl, by simp⟩
  | case4 h s b rest ih =>
    intro recs hok
    cases hrec : parseCommitRecords rest with
    | error e =>
      rw [show parseCommitRecords (h :: s :: b :: rest) =
          Except.error e by simp [parseCommitRecords, hrec, Except.map]] at hok
      simp at hok
    | ok tail =>
      rw [show parseCommitRecords (h :: s :: b :: rest) =
          Except.ok (⟨pystrip h, s, pystrip b⟩ :: tail) by
        simp [parseCommitRecords, hrec, Except.map]] at hok
      injection hok with hok
      subst hok
      intro r hr
      rcases List.mem_cons.1 hr with rfl | hm
      · exact ⟨pystrip_idem h, pystrip_idem b, by simp⟩
      · obtain ⟨h1, h2, h3⟩ := ih tail hrec r hm
        exact ⟨h1, h2,
          List.mem_cons_of_mem _ (List.mem_cons_of_mem _
            (List.mem_cons_of_mem _ h3))⟩

/-- C6 witness: the general statement applied to a concrete token list
with spaced fields. -/
theorem claim6_witness :
    pystrip (⟨"h", "  s  ", "b"⟩ : CommitRecord).identifier =
        (⟨"h", "  s  ", "b"⟩ : CommitRecord).identifier ∧
      pystrip (⟨"h", "  s  ", "b"⟩ : CommitRecord).body =
        (⟨"h", "  s  ", "b"⟩ : CommitRecord).body ∧
      (⟨"h", "  s  ", "b"⟩ : CommitRecord).summary ∈
        [" h ", "  s  ", " b "] :=
  claim6_field_trimming.1 [" h ", "  s  ", " b "] [⟨"h", "  s  ", "b"⟩]
    (by decide) ⟨"h", "  s  ", "b"⟩ (by decide)

/-- C7: for a path without the `.git` metadata directory,
`get_commit_data` returns the empty dataset normally (no exception is
raised: the result is `Except.ok`). -/
theorem claim7_invalid_repo (exec : List String → RawResult) (mc : PyVal) :
    get_commit_data exec false mc = Except.ok [] := rfl

/-- C8: `get_commit_data` is deterministic — two runs whose subprocess
layers return the same outputs on every command, with the same parameters,
produce identical ordered datasets. -/
theorem claim8_deterministic (exec1 exec2 : List String → RawResult)
    (gd : Bool) (mc : PyVal)
    (h : ∀ cmd, exec1 cmd = exec2 cmd) :
    get_commit_data exec1 gd mc = get_commit_data exec2 gd mc := by
  have hfun : exec1 = exec2 := funext h
  rw [hfun]

/-- C8 witness: the determinism theorem applied at a concrete oracle. -/
theorem claim8_witness :
    get_commit_data execNull true PyVal.none =
      get_commit_data execNull true PyVal.none :=
  claim8_deterministic execNull execNull true PyVal.none (fun _ => rfl)

/-- C9: a commit whose diff query succeeds with the empty string is not
filtered out — the loop appends an entry whose `diff` field is `""`. -/
theorem claim9_empty_diff_kept (exec : List String → RawResult)
    (h s b : String) (rest : List String) (tail : List DatasetEntry)
    (hdiff : run_git_command (exec (git_diff_command (pystrip h))) = some "")
    (htail : processTokens exec rest = Except.ok tail) :
    processTokens exec (h :: s :: b :: rest) =
      Except.ok
        (⟨"", pystrip (full_commit_message s (pystrip b))⟩ :: tail) := by
  rw [show processTokens exec (h :: s :: b :: rest) =
      (processTokens exec rest).map
        (fun t => ⟨"", pystrip (full_commit_message s (pystrip b))⟩ :: t) by
    simp [processTokens, hdiff]]
  rw [htail]
  rfl

/-- C9 witness: a concrete empty-diff commit yields the entry with empty
diff. -/
theorem claim9_witness :
    processTokens execEmptyDiff ("h1" :: "s" :: "" :: []) =
      Except.ok
        [⟨"", pystrip (full_commit_message "s" (pystrip ""))⟩] :=
  claim9_empty_diff_kept execEmptyDiff "h1" "s" "" [] [] (by decide) rfl

/-- C10: when `max_commits` is `None`, not an `int`, or an `int` ≤ 0, the
bulk log command is built without any `-n` limit argument. -/
theorem claim10_no_cap :
    git_log_command PyVal.none =
      ["git", "log", "--no-merges", "--pretty=format:%H%x00%s%x00%b%x00"] ∧
    git_log_command PyVal.other =
      ["git", "log", "--no-merges", "--pretty=format:%H%x00%s%x00%b%x00"] ∧
    ∀ n : Int, n ≤ 0 →
      git_log_command (PyVal.int n) =
        ["git", "log", "--no-merges",
          "--pretty=format:%H%x00%s%x00%b%x00"] := by
  refine ⟨rfl, rfl, ?_⟩
  intro n hn
  simp [git_log_command, show ¬(0 < n) by omega]

/-- C10 witness: the cap is omitted for the non-positive int 0. -/
theorem claim10_witness :
    git_log_command (PyVal.int 0) =
      ["git", "log", "--no-merges", "--pretty=format:%H%x00%s%x00%b%x00"] :=
  claim10_no_cap.2.2 0 (by decide)

/-- C5 witness: a two-token list (body missing) parses to one record with
empty body. -/
theorem claim5_witness :
    ∃ recs r, parseCommitRecords ["a", "b"] = Except.ok (recs ++ [r]) ∧
      (recs ++ [r]).length = (["a", "b"] : List String).length / 3 + 1 ∧
      r.body = "" :=
  claim5_short_group_amended ["a", "b"] (by decide)
